import Mathlib

/-!
Shallow embedding of the relationship-graph core of the repository
(src/unnamed/part_003: `graphFor`, `Graph.get`, `Graph.getImplicit`,
`Graph.push`, `Graph.flush`; src/unnamed/part_002 and the file
record-data-for.ts of the record-data package:
`relationshipsFor` / `relationshipStateFor`; and the identifier cache
consumed by store.ts of the ember-data package).

Object identity (JavaScript reference equality) is modelled by allocation:
every object created by the core receives a fresh natural number from a
monotone counter carried in the state, so two objects are "the same object"
exactly when their allocation ids coincide.  JavaScript `Map`s keyed by
object references become association lists (insertion order preserved, as
for a JS `Map`), and the mutable fields of `Graph` become fields of an
explicit `GraphState` threaded through every operation.
-/

/-- StableRecordIdentifier handles: compared by reference in the source,
so modelled as opaque naturals. -/
abbrev Ident := Nat

/-- Relationship field names. -/
abbrev PropertyName := String

/-- JsonApiRelationship payloads are opaque to the Graph (it only queues
and forwards them), so they are modelled as an abstract token. -/
abbrev Payload := Nat

/-- Store wrappers (RecordDataStoreWrapper), compared by reference. -/
abbrev StoreW := Nat

/-- The `kind` field of a Relationship: the two queue buckets used by
`Graph.push` in src/unnamed/part_003 line 52. -/
inductive RelKind where
  | belongsTo
  | hasMany
deriving DecidableEq, Repr

/-- A Relationship object as the Graph sees it: its allocation identity
and its `kind` field (read by `Graph.push` to select a queue). -/
structure RelRef where
  id : Nat
  kind : RelKind
deriving DecidableEq, Repr

/-- A `Relationships` container object: its allocation identity and the
identifier it was constructed for (`new Relationships(this, identifier)`,
src/unnamed/part_003 line 30). -/
structure ContainerRef where
  id : Nat
  identifier : Ident
deriving DecidableEq, Repr

/-- Association-list lookup, the model of `Map.get` / property access. -/
def lookupA {α β : Type} [DecidableEq α] : List (α × β) → α → Option β
  | [], _ => none
  | (k, v) :: rest, a => if k = a then some v else lookupA rest a

/-- The mutable state of a `Graph` (src/unnamed/part_003 lines 19-24):
`identifiers` and `implicitMap` are the two maps, `_queued` is split into
its two buckets, `_nextFlush` is the scheduling flag.  In addition the
state carries: the allocation counter `nextId`; `containerRels`, the
contents of every `Relationships` container owned by this graph (keyed by
container id and field name); `applied`, the trace of
`Relationship.push(payload)` calls made by `flush`, in call order; and
`schedules`, the number of `backburner.schedule(flush)` calls made so far
by `push`. -/
structure GraphState where
  nextId : Nat
  containers : List (Ident × Nat)
  containerRels : List ((Nat × PropertyName) × RelRef)
  implicitMap : List (Ident × Nat)
  queuedBelongsTo : List (RelRef × Payload)
  queuedHasMany : List (RelRef × Payload)
  nextFlush : Bool
  applied : List (RelRef × Payload)
  schedules : Nat
deriving Repr

/-- The state of a freshly constructed `Graph` (src/unnamed/part_003
lines 20-24): empty maps, empty queue, `_nextFlush = false`. -/
def newGraph : GraphState :=
  { nextId := 0, containers := [], containerRels := [], implicitMap := []
  , queuedBelongsTo := [], queuedHasMany := [], nextFlush := false
  , applied := [], schedules := 0 }

/-- Graph.get (src/unnamed/part_003 lines 26-35): look the identifier up
in `identifiers`; on a miss construct a new `Relationships` container
(fresh allocation id, owner recorded) and cache it. -/
def Graph.get (g : GraphState) (identifier : Ident) : ContainerRef × GraphState :=
  match lookupA g.containers identifier with
  | some relationships => (⟨relationships, identifier⟩, g)
  | none =>
      (⟨g.nextId, identifier⟩,
        { g with nextId := g.nextId + 1
               , containers := g.containers ++ [(identifier, g.nextId)] })

/-- Graph.getImplicit (src/unnamed/part_003 lines 37-46): look the
identifier up in `implicitMap`; on a miss create a fresh empty dict
(modelled by its allocation id) and cache it. -/
def Graph.getImplicit (g : GraphState) (identifier : Ident) : Nat × GraphState :=
  match lookupA g.implicitMap identifier with
  | some relationships => (relationships, g)
  | none =>
      (g.nextId,
        { g with nextId := g.nextId + 1
               , implicitMap := g.implicitMap ++ [(identifier, g.nextId)] })

/-- Modelled from the spec: the `Relationships` container class
(`./create`, imported by src/unnamed/part_003 but not itself under src/).
Per spec section 3 it is a "mapping from relationship field name to
Relationship" that "materializes lazily the first time the name is
accessed"; the created Relationship's `kind` is fixed by the schema of the
owning identifier, modelled by the ambient function `kindOf`. -/
def Relationships.get (kindOf : Ident → PropertyName → RelKind) (g : GraphState)
    (container : ContainerRef) (propertyName : PropertyName) : RelRef × GraphState :=
  match lookupA g.containerRels (container.id, propertyName) with
  | some relationship => (relationship, g)
  | none =>
      let relationship : RelRef := ⟨g.nextId, kindOf container.identifier propertyName⟩
      (relationship,
        { g with nextId := g.nextId + 1
               , containerRels := g.containerRels ++ [((container.id, propertyName), relationship)] })

/-- The Relationship object resolved by `this.get(identifier).get(propertyName)`
(src/unnamed/part_003 line 49). -/
def relOf (kindOf : Ident → PropertyName → RelKind) (g : GraphState)
    (identifier : Ident) (propertyName : PropertyName) : RelRef :=
  (Relationships.get kindOf (Graph.get g identifier).2 (Graph.get g identifier).1 propertyName).1

/-- The graph state after the lookups of src/unnamed/part_003 line 49
(containers and relationships lazily materialized). -/
def resolveState (kindOf : Ident → PropertyName → RelKind) (g : GraphState)
    (identifier : Ident) (propertyName : PropertyName) : GraphState :=
  (Relationships.get kindOf (Graph.get g identifier).2 (Graph.get g identifier).1 propertyName).2

/-- Graph.push (src/unnamed/part_003 lines 48-61): resolve the Relationship
via `this.get(identifier).get(propertyName)`, append the (relationship,
payload) pair to the queue bucket selected by `relationship.kind`, and if
`_nextFlush` is false schedule a flush (counted in `schedules`) and set the
flag.  No Relationship is invoked here: `applied` is untouched. -/
def Graph.push (kindOf : Ident → PropertyName → RelKind) (g : GraphState)
    (identifier : Ident) (propertyName : PropertyName) (payload : Payload) : GraphState :=
  let relationship := relOf kindOf g identifier propertyName
  let g2 := resolveState kindOf g identifier propertyName
  let g3 :=
    match relationship.kind with
    | RelKind.hasMany => { g2 with queuedHasMany := g2.queuedHasMany ++ [(relationship, payload)] }
    | RelKind.belongsTo => { g2 with queuedBelongsTo := g2.queuedBelongsTo ++ [(relationship, payload)] }
  if g3.nextFlush = false then
    { g3 with schedules := g3.schedules + 1, nextFlush := true }
  else g3

/-- Modelled from the spec: `Relationship.push(payload)`, the canonical
update entry point of the Relationship state machine (`./relationship`,
not under src/).  The Graph only calls it; its effect is abstracted as
recording the call in the `applied` trace. -/
def Relationship.applyPush (g : GraphState) (relationship : RelRef) (payload : Payload) : GraphState :=
  { g with applied := g.applied ++ [(relationship, payload)] }

/-- The two loops of Graph.flush (src/unnamed/part_003 lines 67-72): walk
one saved queue bucket in order, calling `relationship.push(payload)` on
each pair. -/
def drain (g : GraphState) : List (RelRef × Payload) → GraphState
  | [] => g
  | (relationship, payload) :: rest => drain (Relationship.applyPush g relationship payload) rest

/-- The first three lines of Graph.flush (src/unnamed/part_003 lines
64-66): clear `_nextFlush` and replace `_queued` with fresh empty buckets
(the old buckets having been saved into locals). -/
def Graph.flushReset (g : GraphState) : GraphState :=
  { g with nextFlush := false, queuedBelongsTo := [], queuedHasMany := [] }

/-- Graph.flush (src/unnamed/part_003 lines 63-73): save the queue
buckets, reset the flag and the queue, then apply every queued hasMany
pair and afterwards every queued belongsTo pair, in queue order. -/
def Graph.flush (g : GraphState) : GraphState :=
  let hasMany := g.queuedHasMany
  let belongsTo := g.queuedBelongsTo
  let g1 := Graph.flushReset g
  drain (drain g1 hasMany) belongsTo

/-- A sequence of `Graph.push` calls for one relationship, in submission
order. -/
def pushMany (kindOf : Ident → PropertyName → RelKind) (g : GraphState)
    (identifier : Ident) (propertyName : PropertyName) : List Payload → GraphState
  | [] => g
  | p :: ps => pushMany kindOf (Graph.push kindOf g identifier propertyName p) identifier propertyName ps

/-- The queue bucket a given kind is stored in. -/
def GraphState.queueOf (g : GraphState) : RelKind → List (RelRef × Payload)
  | RelKind.hasMany => g.queuedHasMany
  | RelKind.belongsTo => g.queuedBelongsTo

/-- The payloads queued for one particular Relationship object, in queue
order. -/
def GraphState.queuedFor (g : GraphState) (relationship : RelRef) : List Payload :=
  ((g.queueOf relationship.kind).filter (fun q => decide (q.1 = relationship))).map Prod.snd

/-- The payloads applied (via `Relationship.push`) to one particular
Relationship object so far, in application order. -/
def GraphState.appliedTo (g : GraphState) (relationship : RelRef) : List Payload :=
  (g.applied.filter (fun q => decide (q.1 = relationship))).map Prod.snd

/-- Queue sanity: every pair sits in the bucket matching its
relationship's kind, which is how `Graph.push` files them. -/
def kindConsistent (g : GraphState) : Prop :=
  (∀ q ∈ g.queuedHasMany, q.1.kind = RelKind.hasMany) ∧
  (∀ q ∈ g.queuedBelongsTo, q.1.kind = RelKind.belongsTo)

instance : DecidablePred kindConsistent := fun g => by
  unfold kindConsistent; infer_instance

/-- Allocation sanity for a graph state: every cached container id was
allocated below the counter, and no two identifiers share a container. -/
def GraphWF (g : GraphState) : Prop :=
  (g.containers.map Prod.snd).Nodup ∧ ∀ c ∈ g.containers.map Prod.snd, c < g.nextId

instance : DecidablePred GraphWF := fun g => by
  unfold GraphWF; infer_instance

/-- The module-level `Graphs` WeakMap of src/unnamed/part_003 line 8
together with the states of every Graph it has handed out.  Graph objects
are modelled by allocation ids from `nextGraphId`; `states` gives each
graph id its current `GraphState` (unallocated ids map to `newGraph`,
matching the fresh construction on first use). -/
structure Registry where
  nextGraphId : Nat
  graphs : List (StoreW × Nat)
  states : Nat → GraphState

/-- Pointwise update of the per-graph state table. -/
def setState (f : Nat → GraphState) (k : Nat) (v : GraphState) : Nat → GraphState :=
  fun q => if q = k then v else f q

/-- The registry before any store has asked for a graph. -/
def emptyRegistry : Registry :=
  { nextGraphId := 0, graphs := [], states := fun _ => newGraph }

/-- graphFor (src/unnamed/part_003 lines 10-17): look the store wrapper up
in the `Graphs` WeakMap; on a miss construct `new Graph(store)` and cache
it. -/
def graphFor (reg : Registry) (store : StoreW) : Nat × Registry :=
  match lookupA reg.graphs store with
  | some graph => (graph, reg)
  | none =>
      let graph := reg.nextGraphId
      (graph,
        { reg with nextGraphId := graph + 1
                 , graphs := reg.graphs ++ [(store, graph)]
                 , states := setState reg.states graph newGraph })

/-- A `push` issued through one store: resolve the store's graph with
`graphFor`, then run `Graph.push` on that graph's state. -/
def Registry.pushThrough (kindOf : Ident → PropertyName → RelKind) (reg : Registry)
    (store : StoreW) (identifier : Ident) (propertyName : PropertyName) (payload : Payload) : Registry :=
  let r := graphFor reg store
  { r.2 with states := setState r.2.states r.1 (Graph.push kindOf (r.2.states r.1) identifier propertyName payload) }

/-- Allocation sanity for the registry: every cached graph id was
allocated below the counter, and no two stores share a graph. -/
def RegistryWF (reg : Registry) : Prop :=
  (reg.graphs.map Prod.snd).Nodup ∧ ∀ gid ∈ reg.graphs.map Prod.snd, gid < reg.nextGraphId

instance : DecidablePred RegistryWF := fun reg => by
  unfold RegistryWF; infer_instance

/-- Modelled from the spec: the identifier cache behind
`identifierCacheFor(this).getOrCreateRecordIdentifier` used by
`DefaultStore.createRecordDataFor` (store.ts of the ember-data package);
the cache implementation itself is not under src/.  Per spec section 4.1
it keeps one identifier instance per (type, id) pair, keyed additionally
by client-generated local id.  Identifier instances are modelled by
allocation ids from `nextInstance`; generated local ids are rendered from
the counter. -/
structure IdentifierCache where
  nextInstance : Nat
  byTypeAndId : List ((String × String) × Nat)
  byLid : List (String × Nat)
deriving Repr

/-- The empty identifier cache. -/
def emptyCache : IdentifierCache :=
  { nextInstance := 0, byTypeAndId := [], byLid := [] }

/-- Modelled from the spec (section 4.1): `getOrCreate(type, id, clientId?)`.
If `id` is non-null and cached for (type, id), return that identifier
unchanged; if `id` is null and a supplied `clientId` is already mapped,
return that identifier; otherwise allocate a fresh identifier and register
it under the local-id key (the supplied clientId, or a generated one) and,
when `id` is known, under the (type, id) key. -/
def getOrCreateRecordIdentifier (c : IdentifierCache) (type : String)
    (id : Option String) (clientId : Option String) : Nat × IdentifierCache :=
  match id with
  | some i =>
      match lookupA c.byTypeAndId (type, i) with
      | some identifier => (identifier, c)
      | none =>
          let identifier := c.nextInstance
          let lid := match clientId with | some l => l | none => toString identifier
          (identifier,
            { c with nextInstance := identifier + 1
                   , byTypeAndId := c.byTypeAndId ++ [((type, i), identifier)]
                   , byLid := c.byLid ++ [(lid, identifier)] })
  | none =>
      match clientId with
      | some l =>
          match lookupA c.byLid l with
          | some identifier => (identifier, c)
          | none =>
              let identifier := c.nextInstance
              (identifier,
                { c with nextInstance := identifier + 1
                       , byLid := c.byLid ++ [(l, identifier)] })
      | none =>
          let identifier := c.nextInstance
          (identifier,
            { c with nextInstance := identifier + 1
                   , byLid := c.byLid ++ [(toString identifier, identifier)] })

/-- The InternalModel fallback environment used by the legacy branches of
src/unnamed/part_002: the identifier and (upgraded) store wrapper
recovered from `storeWrapper._internalModel`, and the unchecked cast of
an identifier argument to a property name performed on line 31. -/
structure InternalModelEnv where
  imIdentifier : Ident
  imStore : StoreW
  identifierAsName : Option Ident → PropertyName

/-- relationshipsFor of record-data-for.ts in the record-data package
(lines 31-36): `graphFor(storeWrapper).get(identifier)`.  Returns the
(graph, container) pair and the updated registry. -/
def relationshipsFor (reg : Registry) (storeWrapper : StoreW) (identifier : Ident) :
    (Nat × ContainerRef) × Registry :=
  let r := graphFor reg storeWrapper
  let c := Graph.get (r.2.states r.1) identifier
  ((r.1, c.1), { r.2 with states := setState r.2.states r.1 c.2 })

/-- relationshipStateFor of record-data-for.ts in the record-data package
(lines 38-44): `relationshipsFor(storeWrapper, identifier).get(propertyName)`. -/
def relationshipStateFor (kindOf : Ident → PropertyName → RelKind) (reg : Registry)
    (storeWrapper : StoreW) (identifier : Ident) (propertyName : PropertyName) :
    (Nat × RelRef) × Registry :=
  let rc := relationshipsFor reg storeWrapper identifier
  let r := Relationships.get kindOf (rc.2.states rc.1.1) rc.1.2 propertyName
  ((rc.1.1, r.1), { rc.2 with states := setState rc.2.states rc.1.1 r.2 })

/-- relationshipsFor of src/unnamed/part_002 (lines 12-22): when the
identifier argument is missing, recover identifier and store wrapper from
the internal model before calling `graphFor(storeWrapper).get(identifier)`. -/
def relationshipsForP2 (env : InternalModelEnv) (reg : Registry) (storeWrapper : StoreW)
    (identifier : Option Ident) : (Nat × ContainerRef) × Registry :=
  let resolved : StoreW × Ident :=
    match identifier with
    | none => (env.imStore, env.imIdentifier)
    | some i => (storeWrapper, i)
  let r := graphFor reg resolved.1
  let c := Graph.get (r.2.states r.1) resolved.2
  ((r.1, c.1), { r.2 with states := setState r.2.states r.1 c.2 })

/-- relationshipStateFor of src/unnamed/part_002 (lines 24-36): when the
propertyName argument is missing (legacy two-argument calling convention)
the identifier argument is reinterpreted as the property name and
identifier and store wrapper are recovered from the internal model; then
`relationshipsFor(storeWrapper, identifier).get(propertyName)`. -/
def relationshipStateForP2 (env : InternalModelEnv) (kindOf : Ident → PropertyName → RelKind)
    (reg : Registry) (storeWrapper : StoreW) (identifier : Option Ident)
    (propertyName : PropertyName) : (Nat × RelRef) × Registry :=
  let resolved : StoreW × Option Ident × PropertyName :=
    if propertyName = "" then (env.imStore, some env.imIdentifier, env.identifierAsName identifier)
    else (storeWrapper, identifier, propertyName)
  let rc := relationshipsForP2 env reg resolved.1 resolved.2.1
  let r := Relationships.get kindOf (rc.2.states rc.1.1) rc.1.2 resolved.2.2
  ((rc.1.1, r.1), { rc.2 with states := setState rc.2.states rc.1.1 r.2 })

/-- The operations the host run loop can apply to one Graph: a call to
`Graph.push` or the backburner firing the scheduled flush. -/
inductive GraphOp where
  | pushOp (identifier : Ident) (propertyName : PropertyName) (payload : Payload)
  | runFlush
deriving Repr

/-- A graph state together with the scheduler fact "a flush currently
sits in the backburner queue". -/
structure SchedState where
  graph : GraphState
  pending : Bool

/-- One step of the run-loop model: `push` schedules a flush exactly when
it observes `_nextFlush = false` (src/unnamed/part_003 lines 53-60); the
backburner fires the flush only if one was scheduled. -/
def stepOp (kindOf : Ident → PropertyName → RelKind) (s : SchedState) : GraphOp → SchedState
  | GraphOp.pushOp i n p =>
      { graph := Graph.push kindOf s.graph i n p
      , pending := s.pending || !s.graph.nextFlush }
  | GraphOp.runFlush =>
      if s.pending then { graph := Graph.flush s.graph, pending := false } else s

/-- Run a sequence of run-loop operations. -/
def runOps (kindOf : Ident → PropertyName → RelKind) (s : SchedState) : List GraphOp → SchedState
  | [] => s
  | op :: rest => runOps kindOf (stepOp kindOf s op) rest

/-- The scheduler state of a freshly constructed graph: nothing queued,
nothing scheduled. -/
def initSched : SchedState := { graph := newGraph, pending := false }

/-- A concrete schema used by the closed witness theorems. -/
def kindOfW : Ident → PropertyName → RelKind :=
  fun _ n => if n = "comments" then RelKind.hasMany else RelKind.belongsTo

/-! Helper lemmas about association-list lookup. -/

theorem lookupA_append_some {α β : Type} [DecidableEq α] {l1 : List (α × β)}
    (l2 : List (α × β)) {k : α} {v : β} (h : lookupA l1 k = some v) :
    lookupA (l1 ++ l2) k = some v := by
  induction l1 with
  | nil => simp [lookupA] at h
  | cons a rest ih =>
      obtain ⟨ka, va⟩ := a
      by_cases hk : ka = k
      · subst hk
        simp [lookupA] at h ⊢
        exact h
      · simp [lookupA, hk] at h ⊢
        exact ih h

theorem lookupA_append_none {α β : Type} [DecidableEq α] {l1 : List (α × β)}
    (l2 : List (α × β)) {k : α} (h : lookupA l1 k = none) :
    lookupA (l1 ++ l2) k = lookupA l2 k := by
  induction l1 with
  | nil => simp
  | cons a rest ih =>
      obtain ⟨ka, va⟩ := a
      by_cases hk : ka = k
      · subst hk; simp [lookupA] at h
      · simp [lookupA, hk] at h ⊢
        exact ih h

theorem lookupA_mem_values {α β : Type} [DecidableEq α] {l : List (α × β)}
    {k : α} {v : β} (h : lookupA l k = some v) : v ∈ l.map Prod.snd := by
  induction l with
  | nil => simp [lookupA] at h
  | cons a rest ih =>
      obtain ⟨ka, va⟩ := a
      by_cases hk : ka = k
      · subst hk
        simp [lookupA] at h
        simp [h]
      · simp [lookupA, hk] at h
        simp [ih h]

theorem lookupA_inj {α β : Type} [DecidableEq α] {l : List (α × β)}
    (nd : (l.map Prod.snd).Nodup) {k k' : α} {v : β}
    (h : lookupA l k = some v) (h' : lookupA l k' = some v) : k = k' := by
  induction l with
  | nil => simp [lookupA] at h
  | cons a rest ih =>
      obtain ⟨ka, va⟩ := a
      simp only [List.map_cons, List.nodup_cons] at nd
      by_cases hk : ka = k <;> by_cases hk' : ka = k'
      · exact hk.symm.trans hk'
      · subst hk
        simp [lookupA, hk'] at h h'
        subst h
        exact absurd (lookupA_mem_values h') nd.1
      · subst hk'
        simp [lookupA, hk] at h h'
        subst h'
        exact absurd (lookupA_mem_values h) nd.1
      · simp [lookupA, hk, hk'] at h h'
        exact ih nd.2 h h'

/-! Frame lemmas for `Graph.get`, `Graph.getImplicit` and `Relationships.get`. -/

theorem get_fst_identifier (g : GraphState) (i : Ident) :
    (Graph.get g i).1.identifier = i := by
  unfold Graph.get; split <;> rfl

theorem get_containerRels (g : GraphState) (i : Ident) :
    (Graph.get g i).2.containerRels = g.containerRels := by
  unfold Graph.get; split <;> rfl

theorem get_queuedHasMany (g : GraphState) (i : Ident) :
    (Graph.get g i).2.queuedHasMany = g.queuedHasMany := by
  unfold Graph.get; split <;> rfl

theorem get_queuedBelongsTo (g : GraphState) (i : Ident) :
    (Graph.get g i).2.queuedBelongsTo = g.queuedBelongsTo := by
  unfold Graph.get; split <;> rfl

theorem get_nextFlush (g : GraphState) (i : Ident) :
    (Graph.get g i).2.nextFlush = g.nextFlush := by
  unfold Graph.get; split <;> rfl

theorem get_applied (g : GraphState) (i : Ident) :
    (Graph.get g i).2.applied = g.applied := by
  unfold Graph.get; split <;> rfl

theorem get_schedules (g : GraphState) (i : Ident) :
    (Graph.get g i).2.schedules = g.schedules := by
  unfold Graph.get; split <;> rfl

theorem get_lookup_self (g : GraphState) (i : Ident) :
    lookupA (Graph.get g i).2.containers i = some (Graph.get g i).1.id := by
  unfold Graph.get
  cases h : lookupA g.containers i with
  | some cid => simp [h]
  | none =>
      simp only [h]
      rw [lookupA_append_none _ h]
      simp [lookupA]

theorem relGet_containers (kindOf : Ident → PropertyName → RelKind) (g : GraphState)
    (c : ContainerRef) (n : PropertyName) :
    (Relationships.get kindOf g c n).2.containers = g.containers := by
  unfold Relationships.get; split <;> rfl

theorem relGet_queuedHasMany (kindOf : Ident → PropertyName → RelKind) (g : GraphState)
    (c : ContainerRef) (n : PropertyName) :
    (Relationships.get kindOf g c n).2.queuedHasMany = g.queuedHasMany := by
  unfold Relationships.get; split <;> rfl

theorem relGet_queuedBelongsTo (kindOf : Ident → PropertyName → RelKind) (g : GraphState)
    (c : ContainerRef) (n : PropertyName) :
    (Relationships.get kindOf g c n).2.queuedBelongsTo = g.queuedBelongsTo := by
  unfold Relationships.get; split <;> rfl

theorem relGet_nextFlush (kindOf : Ident → PropertyName → RelKind) (g : GraphState)
    (c : ContainerRef) (n : PropertyName) :
    (Relationships.get kindOf g c n).2.nextFlush = g.nextFlush := by
  unfold Relationships.get; split <;> rfl

theorem relGet_applied (kindOf : Ident → PropertyName → RelKind) (g : GraphState)
    (c : ContainerRef) (n : PropertyName) :
    (Relationships.get kindOf g c n).2.applied = g.applied := by
  unfold Relationships.get; split <;> rfl

theorem relGet_schedules (kindOf : Ident → PropertyName → RelKind) (g : GraphState)
    (c : ContainerRef) (n : PropertyName) :
    (Relationships.get kindOf g c n).2.schedules = g.schedules := by
  unfold Relationships.get; split <;> rfl

theorem relGet_lookup_self (kindOf : Ident → PropertyName → RelKind) (g : GraphState)
    (c : ContainerRef) (n : PropertyName) :
    lookupA (Relationships.get kindOf g c n).2.containerRels (c.id, n) =
      some (Relationships.get kindOf g c n).1 := by
  unfold Relationships.get
  cases h : lookupA g.containerRels (c.id, n) with
  | some rel => simp [h]
  | none =>
      simp only [h]
      rw [lookupA_append_none _ h]
      simp [lookupA]

/-! Lemmas about the lookup stage of `Graph.push`. -/

theorem resolveState_containers (kindOf : Ident → PropertyName → RelKind) (g : GraphState)
    (i : Ident) (n : PropertyName) :
    (resolveState kindOf g i n).containers = (Graph.get g i).2.containers := by
  unfold resolveState; rw [relGet_containers]

theorem resolveState_queuedHasMany (kindOf : Ident → PropertyName → RelKind) (g : GraphState)
    (i : Ident) (n : PropertyName) :
    (resolveState kindOf g i n).queuedHasMany = g.queuedHasMany := by
  unfold resolveState; rw [relGet_queuedHasMany, get_queuedHasMany]

theorem resolveState_queuedBelongsTo (kindOf : Ident → PropertyName → RelKind) (g : GraphState)
    (i : Ident) (n : PropertyName) :
    (resolveState kindOf g i n).queuedBelongsTo = g.queuedBelongsTo := by
  unfold resolveState; rw [relGet_queuedBelongsTo, get_queuedBelongsTo]

theorem resolveState_nextFlush (kindOf : Ident → PropertyName → RelKind) (g : GraphState)
    (i : Ident) (n : PropertyName) :
    (resolveState kindOf g i n).nextFlush = g.nextFlush := by
  unfold resolveState; rw [relGet_nextFlush, get_nextFlush]

theorem resolveState_applied (kindOf : Ident → PropertyName → RelKind) (g : GraphState)
    (i : Ident) (n : PropertyName) :
    (resolveState kindOf g i n).applied = g.applied := by
  unfold resolveState; rw [relGet_applied, get_applied]

theorem resolveState_schedules (kindOf : Ident → PropertyName → RelKind) (g : GraphState)
    (i : Ident) (n : PropertyName) :
    (resolveState kindOf g i n).schedules = g.schedules := by
  unfold resolveState; rw [relGet_schedules, get_schedules]

theorem resolveState_lookup_containers (kindOf : Ident → PropertyName → RelKind)
    (g : GraphState) (i : Ident) (n : PropertyName) :
    lookupA (resolveState kindOf g i n).containers i = some (Graph.get g i).1.id := by
  rw [resolveState_containers]
  exact get_lookup_self g i

theorem resolveState_lookup_rel (kindOf : Ident → PropertyName → RelKind)
    (g : GraphState) (i : Ident) (n : PropertyName) :
    lookupA (resolveState kindOf g i n).containerRels ((Graph.get g i).1.id, n) =
      some (relOf kindOf g i n) := by
  unfold resolveState relOf
  exact relGet_lookup_self kindOf (Graph.get g i).2 (Graph.get g i).1 n

/-- On a state that already caches the container for `i` and the
relationship for `(i, n)`, the lookup stage is pure: it returns the cached
relationship and leaves the state unchanged. -/
theorem relOf_of_cached (kindOf : Ident → PropertyName → RelKind) {g : GraphState}
    {i : Ident} {n : PropertyName} {cid : Nat} {rel : RelRef}
    (hc : lookupA g.containers i = some cid)
    (hr : lookupA g.containerRels (cid, n) = some rel) :
    relOf kindOf g i n = rel ∧ resolveState kindOf g i n = g := by
  unfold relOf resolveState Graph.get
  simp only [hc]
  unfold Relationships.get
  simp [hr]

/-! Lemmas about `Graph.push`. -/

theorem push_applied (kindOf : Ident → PropertyName → RelKind) (g : GraphState)
    (i : Ident) (n : PropertyName) (p : Payload) :
    (Graph.push kindOf g i n p).applied = g.applied := by
  simp only [Graph.push]
  split <;> split <;> simp [resolveState_applied]

theorem push_containers (kindOf : Ident → PropertyName → RelKind) (g : GraphState)
    (i : Ident) (n : PropertyName) (p : Payload) :
    (Graph.push kindOf g i n p).containers = (resolveState kindOf g i n).containers := by
  simp only [Graph.push]
  split <;> split <;> rfl

theorem push_containerRels (kindOf : Ident → PropertyName → RelKind) (g : GraphState)
    (i : Ident) (n : PropertyName) (p : Payload) :
    (Graph.push kindOf g i n p).containerRels = (resolveState kindOf g i n).containerRels := by
  simp only [Graph.push]
  split <;> split <;> rfl

theorem push_nextFlush (kindOf : Ident → PropertyName → RelKind) (g : GraphState)
    (i : Ident) (n : PropertyName) (p : Payload) :
    (Graph.push kindOf g i n p).nextFlush = true := by
  simp only [Graph.push]
  split <;> split <;> simp_all [resolveState_nextFlush]

theorem push_schedules_of_false (kindOf : Ident → PropertyName → RelKind) (g : GraphState)
    (i : Ident) (n : PropertyName) (p : Payload) (h : g.nextFlush = false) :
    (Graph.push kindOf g i n p).schedules = g.schedules + 1 := by
  simp only [Graph.push]
  split <;> split <;> simp_all [resolveState_nextFlush, resolveState_schedules]

theorem push_schedules_of_true (kindOf : Ident → PropertyName → RelKind) (g : GraphState)
    (i : Ident) (n : PropertyName) (p : Payload) (h : g.nextFlush = true) :
    (Graph.push kindOf g i n p).schedules = g.schedules := by
  simp only [Graph.push]
  split <;> split <;> simp_all [resolveState_nextFlush, resolveState_schedules]

theorem push_queues_of_hasMany (kindOf : Ident → PropertyName → RelKind) (g : GraphState)
    (i : Ident) (n : PropertyName) (p : Payload)
    (h : (relOf kindOf g i n).kind = RelKind.hasMany) :
    (Graph.push kindOf g i n p).queuedHasMany = g.queuedHasMany ++ [(relOf kindOf g i n, p)] ∧
    (Graph.push kindOf g i n p).queuedBelongsTo = g.queuedBelongsTo := by
  simp only [Graph.push]
  split <;> split <;>
    simp_all [resolveState_queuedHasMany, resolveState_queuedBelongsTo]

theorem push_queues_of_belongsTo (kindOf : Ident → PropertyName → RelKind) (g : GraphState)
    (i : Ident) (n : PropertyName) (p : Payload)
    (h : (relOf kindOf g i n).kind = RelKind.belongsTo) :
    (Graph.push kindOf g i n p).queuedBelongsTo = g.queuedBelongsTo ++ [(relOf kindOf g i n, p)] ∧
    (Graph.push kindOf g i n p).queuedHasMany = g.queuedHasMany := by
  simp only [Graph.push]
  split <;> split <;>
    simp_all [resolveState_queuedHasMany, resolveState_queuedBelongsTo]

theorem push_queuedFor_same (kindOf : Ident → PropertyName → RelKind) (g : GraphState)
    (i : Ident) (n : PropertyName) (p : Payload) :
    GraphState.queuedFor (Graph.push kindOf g i n p) (relOf kindOf g i n) =
      GraphState.queuedFor g (relOf kindOf g i n) ++ [p] := by
  cases hk : (relOf kindOf g i n).kind with
  | hasMany =>
      obtain ⟨h1, _⟩ := push_queues_of_hasMany kindOf g i n p hk
      simp [GraphState.queuedFor, GraphState.queueOf, hk, h1, List.filter_append]
  | belongsTo =>
      obtain ⟨h1, _⟩ := push_queues_of_belongsTo kindOf g i n p hk
      simp [GraphState.queuedFor, GraphState.queueOf, hk, h1, List.filter_append]

theorem push_kindConsistent (kindOf : Ident → PropertyName → RelKind) (g : GraphState)
    (i : Ident) (n : PropertyName) (p : Payload) (h : kindConsistent g) :
    kindConsistent (Graph.push kindOf g i n p) := by
  obtain ⟨hHM, hBT⟩ := h
  cases hk : (relOf kindOf g i n).kind with
  | hasMany =>
      obtain ⟨h1, h2⟩ := push_queues_of_hasMany kindOf g i n p hk
      constructor
      · intro q hq
        rw [h1] at hq
        rcases List.mem_append.mp hq with hq | hq
        · exact hHM q hq
        · simp at hq
          simp [hq, hk]
      · intro q hq
        rw [h2] at hq
        exact hBT q hq
  | belongsTo =>
      obtain ⟨h1, h2⟩ := push_queues_of_belongsTo kindOf g i n p hk
      constructor
      · intro q hq
        rw [h2] at hq
        exact hHM q hq
      · intro q hq
        rw [h1] at hq
        rcases List.mem_append.mp hq with hq | hq
        · exact hBT q hq
        · simp at hq
          simp [hq, hk]

/-- Pushing caches the lookup state, so resolving the same (identifier,
propertyName) on the pushed state yields the same Relationship object and
changes nothing. -/
theorem relOf_push_same (kindOf : Ident → PropertyName → RelKind) (g : GraphState)
    (i : Ident) (n : PropertyName) (p : Payload) :
    relOf kindOf (Graph.push kindOf g i n p) i n = relOf kindOf g i n ∧
    resolveState kindOf (Graph.push kindOf g i n p) i n = Graph.push kindOf g i n p := by
  have hc : lookupA (Graph.push kindOf g i n p).containers i = some (Graph.get g i).1.id := by
    rw [push_containers]
    exact resolveState_lookup_containers kindOf g i n
  have hr : lookupA (Graph.push kindOf g i n p).containerRels ((Graph.get g i).1.id, n) =
      some (relOf kindOf g i n) := by
    rw [push_containerRels]
    exact resolveState_lookup_rel kindOf g i n
  exact relOf_of_cached kindOf hc hr

/-! Lemmas about `pushMany`. -/

theorem pushMany_facts (kindOf : Ident → PropertyName → RelKind) (i : Ident)
    (n : PropertyName) (ps : List Payload) (g : GraphState) :
    (pushMany kindOf g i n ps).applied = g.applied ∧
    relOf kindOf (pushMany kindOf g i n ps) i n = relOf kindOf g i n ∧
    GraphState.queuedFor (pushMany kindOf g i n ps) (relOf kindOf g i n) =
      GraphState.queuedFor g (relOf kindOf g i n) ++ ps ∧
    (kindConsistent g → kindConsistent (pushMany kindOf g i n ps)) := by
  induction ps generalizing g with
  | nil => simp [pushMany]
  | cons p rest ih =>
      obtain ⟨ihA, ihR, ihQ, ihK⟩ := ih (Graph.push kindOf g i n p)
      refine ⟨?_, ?_, ?_, ?_⟩
      · rw [pushMany, ihA, push_applied]
      · rw [pushMany, ihR, (relOf_push_same kindOf g i n p).1]
      · rw [pushMany]
        have hrel := (relOf_push_same kindOf g i n p).1
        rw [hrel] at ihQ
        rw [ihQ, push_queuedFor_same]
        simp
      · intro hk
        rw [pushMany]
        exact ihK (push_kindConsistent kindOf g i n p hk)

/-! Lemmas about `drain` and `Graph.flush`. -/

theorem drain_spec (l : List (RelRef × Payload)) (g : GraphState) :
    drain g l = { g with applied := g.applied ++ l } := by
  induction l generalizing g with
  | nil => simp [drain]
  | cons q rest ih =>
      obtain ⟨rel, p⟩ := q
      rw [drain, ih]
      simp [Relationship.applyPush]

theorem flush_spec (g : GraphState) :
    Graph.flush g =
      { g with nextFlush := false, queuedBelongsTo := [], queuedHasMany := []
             , applied := g.applied ++ g.queuedHasMany ++ g.queuedBelongsTo } := by
  unfold Graph.flush Graph.flushReset
  rw [drain_spec, drain_spec]

/-- Entries for a relationship never sit in the queue bucket of the other
kind, so filtering that bucket for the relationship yields nothing. -/
theorem filter_other_bucket_nil {l : List (RelRef × Payload)} {k : RelKind}
    (hl : ∀ q ∈ l, q.1.kind = k) {rel : RelRef} (hrel : rel.kind ≠ k) :
    l.filter (fun q => decide (q.1 = rel)) = [] := by
  apply List.filter_eq_nil_iff.mpr
  intro q hq
  simp only [decide_eq_true_eq]
  intro hcontra
  exact hrel (hcontra ▸ hl q hq)

/-- What a flush applies to one particular Relationship: everything that
was queued for it, after everything already applied, in queue order. -/
theorem appliedTo_flush (g : GraphState) (rel : RelRef) (h : kindConsistent g) :
    GraphState.appliedTo (Graph.flush g) rel =
      GraphState.appliedTo g rel ++ GraphState.queuedFor g rel := by
  obtain ⟨hHM, hBT⟩ := h
  rw [flush_spec]
  cases hk : rel.kind with
  | hasMany =>
      have hkill : g.queuedBelongsTo.filter (fun q => decide (q.1 = rel)) = [] :=
        filter_other_bucket_nil hBT (by simp [hk])
      simp [GraphState.appliedTo, GraphState.queuedFor, GraphState.queueOf, hk,
        List.filter_append, hkill]
  | belongsTo =>
      have hkill : g.queuedHasMany.filter (fun q => decide (q.1 = rel)) = [] :=
        filter_other_bucket_nil hHM (by simp [hk])
      simp [GraphState.appliedTo, GraphState.queuedFor, GraphState.queueOf, hk,
        List.filter_append, hkill]

/-! Lemmas about `Graph.get` allocation sanity. -/

theorem get_WF {g : GraphState} (hwf : GraphWF g) (i : Ident) :
    GraphWF (Graph.get g i).2 := by
  obtain ⟨hnd, hlt⟩ := hwf
  unfold Graph.get
  cases h : lookupA g.containers i with
  | some cid => exact ⟨hnd, hlt⟩
  | none =>
      constructor
      · simp only [List.map_append, List.map_cons, List.map_nil]
        rw [List.nodup_append]
        refine ⟨hnd, List.nodup_singleton _, ?_⟩
        intro a ha hb
        simp at hb
        subst hb
        exact absurd rfl (Nat.ne_of_lt (hlt _ ha))
      · intro c hc
        simp only [List.map_append, List.map_cons, List.map_nil, List.mem_append] at hc
        rcases hc with hc | hc
        · exact Nat.lt_succ_of_lt (hlt c hc)
        · simp at hc
          subst hc
          exact Nat.lt_succ_self _

/-! Lemmas about `graphFor` and the registry. -/

theorem setState_self (f : Nat → GraphState) (k : Nat) (v : GraphState) :
    setState f k v k = v := by
  simp [setState]

theorem setState_other (f : Nat → GraphState) (k q : Nat) (v : GraphState) (h : q ≠ k) :
    setState f k v q = f q := by
  simp [setState, h]

theorem graphFor_lookup_self (reg : Registry) (s : StoreW) :
    lookupA (graphFor reg s).2.graphs s = some (graphFor reg s).1 := by
  unfold graphFor
  cases h : lookupA reg.graphs s with
  | some gid => simp [h]
  | none =>
      simp only [h]
      rw [lookupA_append_none _ h]
      simp [lookupA]

theorem graphFor_preserves_lookup (reg : Registry) (s s' : StoreW) {gid : Nat}
    (h : lookupA reg.graphs s = some gid) :
    lookupA (graphFor reg s').2.graphs s = some gid := by
  unfold graphFor
  cases h' : lookupA reg.graphs s' with
  | some gid' => simpa using h
  | none =>
      simp only [h']
      exact lookupA_append_some _ h

theorem graphFor_WF {reg : Registry} (hwf : RegistryWF reg) (s : StoreW) :
    RegistryWF (graphFor reg s).2 := by
  obtain ⟨hnd, hlt⟩ := hwf
  unfold graphFor
  cases h : lookupA reg.graphs s with
  | some gid => exact ⟨hnd, hlt⟩
  | none =>
      constructor
      · simp only [List.map_append, List.map_cons, List.map_nil]
        rw [List.nodup_append]
        refine ⟨hnd, List.nodup_singleton _, ?_⟩
        intro a ha hb
        simp at hb
        subst hb
        exact absurd rfl (Nat.ne_of_lt (hlt _ ha))
      · intro c hc
        simp only [List.map_append, List.map_cons, List.map_nil, List.mem_append] at hc
        rcases hc with hc | hc
        · exact Nat.lt_succ_of_lt (hlt c hc)
        · simp at hc
          subst hc
          exact Nat.lt_succ_self _

/-- C2: Graph.flush drains the entire queue: every queued (relationship,
payload) pair is applied to its target Relationship exactly once, all
queued hasMany updates are applied before any queued belongsTo update, and
after flush returns the queue is empty. -/
theorem flush_drains_queue (g : GraphState) :
    (Graph.flush g).applied = g.applied ++ g.queuedHasMany ++ g.queuedBelongsTo ∧
    (Graph.flush g).queuedHasMany = [] ∧
    (Graph.flush g).queuedBelongsTo = [] ∧
    ∀ q : RelRef × Payload,
      (Graph.flush g).applied.count q =
        g.applied.count q + g.queuedHasMany.count q + g.queuedBelongsTo.count q := by
  rw [flush_spec]
  refine ⟨rfl, rfl, rfl, ?_⟩
  intro q
  simp [List.count_append, Nat.add_assoc]

/-- C4: calling Graph.flush when the queue is empty (and no flush is
pending) applies no update to any Relationship and leaves the Graph state
exactly as it was. -/
theorem flush_empty_idempotent (g : GraphState)
    (h1 : g.queuedHasMany = []) (h2 : g.queuedBelongsTo = []) (h3 : g.nextFlush = false) :
    Graph.flush g = g ∧ (Graph.flush g).applied = g.applied := by
  have heq : Graph.flush g = g := by
    rw [flush_spec, h1, h2]
    cases g
    simp_all
  exact ⟨heq, by rw [heq]⟩

/-- C4 witness: flushing a fresh graph is a no-op. -/
theorem flush_empty_idempotent_witness :
    newGraph.queuedHasMany = [] ∧ newGraph.queuedBelongsTo = [] ∧
    newGraph.nextFlush = false ∧ Graph.flush newGraph = newGraph :=
  ⟨rfl, rfl, rfl, (flush_empty_idempotent newGraph rfl rfl rfl).1⟩

/-- C8: Graph.flush clears the pending-flush flag and replaces the queued
arrays with fresh empty arrays before applying any queued update, so a
push that occurs while the flush is draining lands in a fresh batch of its
own, schedules a new flush, and is neither appended to the arrays being
drained nor dropped. -/
theorem flush_resets_before_applying (kindOf : Ident → PropertyName → RelKind)
    (g : GraphState) (i : Ident) (n : PropertyName) (p : Payload) :
    Graph.flush g = drain (drain (Graph.flushReset g) g.queuedHasMany) g.queuedBelongsTo ∧
    (Graph.flushReset g).nextFlush = false ∧
    (Graph.flushReset g).queuedHasMany = [] ∧
    (Graph.flushReset g).queuedBelongsTo = [] ∧
    (Graph.flushReset g).applied = g.applied ∧
    ∀ l : List (RelRef × Payload),
      (Graph.push kindOf (drain (Graph.flushReset g) l) i n p).schedules =
        (drain (Graph.flushReset g) l).schedules + 1 ∧
      (Graph.push kindOf (drain (Graph.flushReset g) l) i n p).nextFlush = true ∧
      (Graph.push kindOf (drain (Graph.flushReset g) l) i n p).queuedHasMany.length +
        (Graph.push kindOf (drain (Graph.flushReset g) l) i n p).queuedBelongsTo.length = 1 ∧
      GraphState.queuedFor (Graph.push kindOf (drain (Graph.flushReset g) l) i n p)
          (relOf kindOf (drain (Graph.flushReset g) l) i n) = [p] := by
  refine ⟨rfl, rfl, rfl, rfl, rfl, ?_⟩
  intro l
  have hmid : drain (Graph.flushReset g) l =
      { g with nextFlush := false, queuedBelongsTo := [], queuedHasMany := []
             , applied := g.applied ++ l } := by
    rw [drain_spec]; rfl
  have hflag : (drain (Graph.flushReset g) l).nextFlush = false := by rw [hmid]
  have hHM : (drain (Graph.flushReset g) l).queuedHasMany = [] := by rw [hmid]
  have hBT : (drain (Graph.flushReset g) l).queuedBelongsTo = [] := by rw [hmid]
  refine ⟨push_schedules_of_false kindOf _ i n p hflag,
          push_nextFlush kindOf _ i n p, ?_, ?_⟩
  · cases hk : (relOf kindOf (drain (Graph.flushReset g) l) i n).kind with
    | hasMany =>
        obtain ⟨hq1, hq2⟩ := push_queues_of_hasMany kindOf _ i n p hk
        rw [hq1, hq2, hHM, hBT]
        rfl
    | belongsTo =>
        obtain ⟨hq1, hq2⟩ := push_queues_of_belongsTo kindOf _ i n p hk
        rw [hq1, hq2, hHM, hBT]
        rfl
  · rw [push_queuedFor_same]
    have hempty : GraphState.queuedFor (drain (Graph.flushReset g) l)
        (relOf kindOf (drain (Graph.flushReset g) l) i n) = [] := by
      unfold GraphState.queuedFor
      cases (relOf kindOf (drain (Graph.flushReset g) l) i n).kind <;>
        simp [GraphState.queueOf, hHM, hBT]
    rw [hempty]
    rfl

/-- C10: Graph.push materializes lookup state immediately: after the push
and before any flush the identifiers map holds a container for the pushed
identifier, the container holds the resolved Relationship under the pushed
property name, the queued entry at the tail of the kind bucket holds
exactly that Relationship object and the payload, and resolving the same
(identifier, propertyName) again yields the identical Relationship object. -/
theorem push_materializes_lookup_state (kindOf : Ident → PropertyName → RelKind)
    (g : GraphState) (i : Ident) (n : PropertyName) (p : Payload) :
    lookupA (Graph.push kindOf g i n p).containers i = some (Graph.get g i).1.id ∧
    lookupA (Graph.push kindOf g i n p).containerRels ((Graph.get g i).1.id, n) =
      some (relOf kindOf g i n) ∧
    ((Graph.push kindOf g i n p).queueOf (relOf kindOf g i n).kind).getLast? =
      some (relOf kindOf g i n, p) ∧
    relOf kindOf (Graph.push kindOf g i n p) i n = relOf kindOf g i n := by
  refine ⟨?_, ?_, ?_, (relOf_push_same kindOf g i n p).1⟩
  · rw [push_containers]
    exact resolveState_lookup_containers kindOf g i n
  · rw [push_containerRels]
    exact resolveState_lookup_rel kindOf g i n
  · cases hk : (relOf kindOf g i n).kind with
    | hasMany =>
        obtain ⟨hq1, _⟩ := push_queues_of_hasMany kindOf g i n p hk
        simp [GraphState.queueOf, hq1]
    | belongsTo =>
        obtain ⟨hq1, _⟩ := push_queues_of_belongsTo kindOf g i n p hk
        simp [GraphState.queueOf, hq1]

/-- C1: Graph.push enqueues the canonical update instead of applying it
(the application trace is untouched by push), a burst of pushes for one
relationship is retained in the queue whole and in submission order, and
the flush then applies exactly those payloads to that relationship in that
same order. -/
theorem push_enqueues_flush_applies_in_order (kindOf : Ident → PropertyName → RelKind)
    (g : GraphState) (i : Ident) (n : PropertyName) (ps : List Payload)
    (hk : kindConsistent g) :
    (∀ p : Payload, (Graph.push kindOf g i n p).applied = g.applied) ∧
    (pushMany kindOf g i n ps).applied = g.applied ∧
    GraphState.queuedFor (pushMany kindOf g i n ps) (relOf kindOf g i n) =
      GraphState.queuedFor g (relOf kindOf g i n) ++ ps ∧
    GraphState.appliedTo (Graph.flush (pushMany kindOf g i n ps)) (relOf kindOf g i n) =
      GraphState.appliedTo g (relOf kindOf g i n) ++
        (GraphState.queuedFor g (relOf kindOf g i n) ++ ps) := by
  obtain ⟨hA, hR, hQ, hK⟩ := pushMany_facts kindOf i n ps g
  refine ⟨fun p => push_applied kindOf g i n p, hA, hQ, ?_⟩
  have happliedTo : GraphState.appliedTo (pushMany kindOf g i n ps) (relOf kindOf g i n) =
      GraphState.appliedTo g (relOf kindOf g i n) := by
    unfold GraphState.appliedTo
    rw [hA]
  rw [appliedTo_flush _ _ (hK hk), happliedTo, hQ]

/-- C1 witness: three pushes for one hasMany relationship on a fresh
graph, then a flush. -/
theorem push_enqueues_flush_applies_in_order_witness :
    kindConsistent newGraph ∧
    ((∀ p : Payload, (Graph.push kindOfW newGraph 0 "comments" p).applied = newGraph.applied) ∧
    (pushMany kindOfW newGraph 0 "comments" [1, 2, 3]).applied = newGraph.applied ∧
    GraphState.queuedFor (pushMany kindOfW newGraph 0 "comments" [1, 2, 3])
        (relOf kindOfW newGraph 0 "comments") =
      GraphState.queuedFor newGraph (relOf kindOfW newGraph 0 "comments") ++ [1, 2, 3] ∧
    GraphState.appliedTo (Graph.flush (pushMany kindOfW newGraph 0 "comments" [1, 2, 3]))
        (relOf kindOfW newGraph 0 "comments") =
      GraphState.appliedTo newGraph (relOf kindOfW newGraph 0 "comments") ++
        (GraphState.queuedFor newGraph (relOf kindOfW newGraph 0 "comments") ++ [1, 2, 3])) :=
  ⟨by decide,
   push_enqueues_flush_applies_in_order kindOfW newGraph 0 "comments" [1, 2, 3] (by decide)⟩

/-- The run-loop invariant behind C3: a flush sits in the scheduler
exactly when the graph's flag says so. -/
theorem sched_invariant (kindOf : Ident → PropertyName → RelKind) (ops : List GraphOp)
    (s : SchedState) (h : s.pending = s.graph.nextFlush) :
    (runOps kindOf s ops).pending = (runOps kindOf s ops).graph.nextFlush := by
  induction ops generalizing s with
  | nil => exact h
  | cons op rest ih =>
      rw [runOps]
      apply ih
      cases op with
      | pushOp i n p =>
          simp only [stepOp, push_nextFlush, h]
          cases hx : s.graph.nextFlush <;> simp
      | runFlush =>
          simp only [stepOp]
          by_cases hp : s.pending
          · simp only [hp, if_true]
            rw [flush_spec]
          · simp only [hp, if_false]
            exact h

/-- C3: at most one flush is pending at any time: a push schedules a
deferred flush exactly when the _nextFlush flag is false, a push that
finds the flag set appends to the current batch without scheduling, and
along every run-loop history a flush is sitting in the scheduler if and
only if the flag is true. -/
theorem single_flush_scheduled (kindOf : Ident → PropertyName → RelKind)
    (ops : List GraphOp) (g : GraphState) (i : Ident) (n : PropertyName) (p : Payload) :
    (runOps kindOf initSched ops).pending = (runOps kindOf initSched ops).graph.nextFlush ∧
    (g.nextFlush = false →
      (Graph.push kindOf g i n p).schedules = g.schedules + 1 ∧
      (Graph.push kindOf g i n p).nextFlush = true) ∧
    (g.nextFlush = true →
      (Graph.push kindOf g i n p).schedules = g.schedules ∧
      (Graph.push kindOf g i n p).nextFlush = true) ∧
    GraphState.queuedFor (Graph.push kindOf g i n p) (relOf kindOf g i n) =
      GraphState.queuedFor g (relOf kindOf g i n) ++ [p] := by
  refine ⟨sched_invariant kindOf ops initSched rfl, ?_, ?_, push_queuedFor_same kindOf g i n p⟩
  · intro h
    exact ⟨push_schedules_of_false kindOf g i n p h, push_nextFlush kindOf g i n p⟩
  · intro h
    exact ⟨push_schedules_of_true kindOf g i n p h, push_nextFlush kindOf g i n p⟩

/-- C3 witness: the first push on a fresh graph schedules; a second push
before the flush does not schedule again. -/
theorem single_flush_scheduled_witness :
    newGraph.nextFlush = false ∧
    (Graph.push kindOfW newGraph 0 "comments" 1).schedules = newGraph.schedules + 1 ∧
    (Graph.push kindOfW newGraph 0 "comments" 1).nextFlush = true ∧
    (Graph.push kindOfW (Graph.push kindOfW newGraph 0 "comments" 1) 0 "comments" 2).schedules =
      (Graph.push kindOfW newGraph 0 "comments" 1).schedules := by
  refine ⟨rfl, ?_, ?_, ?_⟩
  · exact ((single_flush_scheduled kindOfW [] newGraph 0 "comments" 1).2.1 rfl).1
  · exact ((single_flush_scheduled kindOfW [] newGraph 0 "comments" 1).2.1 rfl).2
  · exact ((single_flush_scheduled kindOfW []
      (Graph.push kindOfW newGraph 0 "comments" 1) 0 "comments" 2).2.2.1 (by decide)).1

/-- C5: Graph.get lazily creates and caches the Relationships container:
a first call for an uncached identifier allocates a container not yet
present in the map and stores it, a repeated call returns the identical
container object without touching the state, and distinct identifiers
never share a container. -/
theorem get_lazy_cache_identity (g : GraphState) (i j : Ident)
    (hwf : GraphWF g) (hmiss : lookupA g.containers i = none) (hij : i ≠ j) :
    (Graph.get g i).1.id ∉ g.containers.map Prod.snd ∧
    (Graph.get g i).2.containers = g.containers ++ [(i, (Graph.get g i).1.id)] ∧
    (Graph.get (Graph.get g i).2 i).1 = (Graph.get g i).1 ∧
    (Graph.get (Graph.get g i).2 i).2 = (Graph.get g i).2 ∧
    (Graph.get (Graph.get g i).2 j).1.id ≠ (Graph.get g i).1.id := by
  have hG : Graph.get g i =
      (⟨g.nextId, i⟩,
        { g with nextId := g.nextId + 1, containers := g.containers ++ [(i, g.nextId)] }) := by
    unfold Graph.get
    rw [hmiss]
  have hself : lookupA (g.containers ++ [(i, g.nextId)]) i = some g.nextId := by
    rw [lookupA_append_none _ hmiss]
    simp [lookupA]
  refine ⟨?_, ?_, ?_, ?_, ?_⟩
  · rw [hG]
    intro hmem
    exact absurd rfl (Nat.ne_of_lt (hwf.2 _ hmem))
  · rw [hG]
  · rw [hG]
    unfold Graph.get
    simp only [hself]
  · rw [hG]
    unfold Graph.get
    simp only [hself]
  · rw [hG]
    simp only
    unfold Graph.get
    cases hj : lookupA (g.containers ++ [(i, g.nextId)]) j with
    | some c =>
        simp only [hj]
        have hj0 : lookupA g.containers j = some c := by
          cases hj0 : lookupA g.containers j with
          | some c0 =>
              rw [lookupA_append_some _ hj0] at hj
              exact hj
          | none =>
              rw [lookupA_append_none _ hj0] at hj
              simp [lookupA, hij] at hj
        have := hwf.2 c (lookupA_mem_values hj0)
        exact Nat.ne_of_lt this
    | none =>
        simp only [hj]
        simp

/-- C5 witness: two distinct identifiers on a fresh graph. -/
theorem get_lazy_cache_identity_witness :
    GraphWF newGraph ∧ lookupA newGraph.containers 0 = none ∧ (0 : Ident) ≠ 1 ∧
    ((Graph.get (Graph.get newGraph 0).2 0).1 = (Graph.get newGraph 0).1 ∧
     (Graph.get (Graph.get newGraph 0).2 1).1.id ≠ (Graph.get newGraph 0).1.id) := by
  have h := get_lazy_cache_identity newGraph 0 1 (by decide) (by decide) (by decide)
  exact ⟨by decide, by decide, by decide, h.2.2.1, h.2.2.2.2⟩

/-- A cached store hit in `graphFor` returns the cached graph and leaves
the registry unchanged. -/
theorem graphFor_cached {reg : Registry} {s : StoreW} {gid : Nat}
    (h : lookupA reg.graphs s = some gid) : graphFor reg s = (gid, reg) := by
  unfold graphFor
  rw [h]

/-- A registry miss in `graphFor` hands out the next graph id. -/
theorem graphFor_fresh_fst {reg : Registry} {s : StoreW}
    (h : lookupA reg.graphs s = none) : (graphFor reg s).1 = reg.nextGraphId := by
  unfold graphFor
  rw [h]

/-- C6: the Graph is a singleton per store: repeated graphFor calls with
one store wrapper return the identical Graph object without touching the
registry, distinct store wrappers receive distinct Graphs, and a push
issued through one store leaves the other store's graph state untouched
(no Relationship created through one store's Graph becomes reachable
through another store's Graph). -/
theorem graphFor_singleton_per_store (reg : Registry) (s s' : StoreW)
    (kindOf : Ident → PropertyName → RelKind) (i : Ident) (n : PropertyName) (p : Payload)
    (hwf : RegistryWF reg) (hss : s ≠ s') :
    graphFor (graphFor reg s).2 s = ((graphFor reg s).1, (graphFor reg s).2) ∧
    (graphFor (graphFor reg s).2 s').1 ≠ (graphFor reg s).1 ∧
    (Registry.pushThrough kindOf (graphFor (graphFor reg s).2 s').2 s i n p).states
        (graphFor (graphFor reg s).2 s').1 =
      (graphFor (graphFor reg s).2 s').2.states (graphFor (graphFor reg s).2 s').1 := by
  have hl1 : lookupA (graphFor reg s).2.graphs s = some (graphFor reg s).1 :=
    graphFor_lookup_self reg s
  have hwf1 : RegistryWF (graphFor reg s).2 := graphFor_WF hwf s
  have hne : (graphFor (graphFor reg s).2 s').1 ≠ (graphFor reg s).1 := by
    cases h2 : lookupA (graphFor reg s).2.graphs s' with
    | some gid =>
        have hfst : (graphFor (graphFor reg s).2 s').1 = gid := by
          rw [graphFor_cached h2]
        rw [hfst]
        intro heq
        subst heq
        exact hss (lookupA_inj hwf1.1 hl1 h2)
    | none =>
        rw [graphFor_fresh_fst h2]
        have hmem := lookupA_mem_values hl1
        exact (Nat.ne_of_lt (hwf1.2 _ hmem)).symm
  have hl2 : lookupA (graphFor (graphFor reg s).2 s').2.graphs s = some (graphFor reg s).1 :=
    graphFor_preserves_lookup _ s s' hl1
  refine ⟨graphFor_cached hl1, hne, ?_⟩
  unfold Registry.pushThrough
  rw [graphFor_cached hl2]
  exact setState_other _ _ _ _ hne

/-- C6 witness: two distinct stores on the empty registry. -/
theorem graphFor_singleton_per_store_witness :
    RegistryWF emptyRegistry ∧ (0 : StoreW) ≠ 1 ∧
    (graphFor (graphFor emptyRegistry 0).2 0 =
        ((graphFor emptyRegistry 0).1, (graphFor emptyRegistry 0).2) ∧
      (graphFor (graphFor emptyRegistry 0).2 1).1 ≠ (graphFor emptyRegistry 0).1) := by
  have h := graphFor_singleton_per_store emptyRegistry 0 1 kindOfW 0 "comments" 1
    (by decide) (by decide)
  exact ⟨by decide, by decide, h.1, h.2.1⟩

/-- A cached (type, id) hit in the identifier cache returns the cached
identifier instance and leaves the cache unchanged. -/
theorem getOrCreate_cached {c : IdentifierCache} {type i : String} {ident : Nat}
    (h : lookupA c.byTypeAndId (type, i) = some ident) (lid : Option String) :
    getOrCreateRecordIdentifier c type (some i) lid = (ident, c) := by
  unfold getOrCreateRecordIdentifier
  simp [h]

/-- After any getOrCreate with a non-null id, the (type, id) key maps to
the identifier instance just returned. -/
theorem getOrCreate_lookup_post (c : IdentifierCache) (type i : String) (lid : Option String) :
    lookupA (getOrCreateRecordIdentifier c type (some i) lid).2.byTypeAndId (type, i) =
      some (getOrCreateRecordIdentifier c type (some i) lid).1 := by
  unfold getOrCreateRecordIdentifier
  cases h : lookupA c.byTypeAndId (type, i) with
  | some ident => simp [h]
  | none =>
      simp only [h]
      rw [lookupA_append_none _ h]
      simp [lookupA]

/-- C7: identifier-cache identity uniqueness: for a non-null id, a cached
identifier for (type, id) is returned unchanged, and repeated getOrCreate
calls return the identical identifier instance with the cache unchanged
after the first call. -/
theorem getOrCreate_identifier_unique (c : IdentifierCache) (type i : String)
    (lid lid' : Option String) :
    (∀ ident, lookupA c.byTypeAndId (type, i) = some ident →
      getOrCreateRecordIdentifier c type (some i) lid = (ident, c)) ∧
    getOrCreateRecordIdentifier
        (getOrCreateRecordIdentifier c type (some i) lid).2 type (some i) lid' =
      ((getOrCreateRecordIdentifier c type (some i) lid).1,
        (getOrCreateRecordIdentifier c type (some i) lid).2) :=
  ⟨fun _ h => getOrCreate_cached h lid,
   getOrCreate_cached (getOrCreate_lookup_post c type i lid) lid'⟩

/-- C7 witness: one concrete (type, id) pair created and looked up again. -/
theorem getOrCreate_identifier_unique_witness :
    lookupA (getOrCreateRecordIdentifier emptyCache "post" (some "1") none).2.byTypeAndId
        ("post", "1") = some 0 ∧
    getOrCreateRecordIdentifier
        (getOrCreateRecordIdentifier emptyCache "post" (some "1") none).2
        "post" (some "1") none =
      (0, (getOrCreateRecordIdentifier emptyCache "post" (some "1") none).2) := by
  refine ⟨by decide, ?_⟩
  exact (getOrCreate_identifier_unique
    (getOrCreateRecordIdentifier emptyCache "post" (some "1") none).2
    "post" "1" none none).1 0 (by decide)

/-- C9: on well-formed inputs (identifier present, propertyName
non-empty) the relationshipsFor and relationshipStateFor of
src/unnamed/part_002 agree with the functions of the same names in
record-data-for.ts of the record-data package: the InternalModel fallback
branches are skipped and both compute the same lookup. -/
theorem record_data_for_equivalence (env : InternalModelEnv)
    (kindOf : Ident → PropertyName → RelKind) (reg : Registry) (sw : StoreW)
    (i : Ident) (n : PropertyName) (hn : n ≠ "") :
    relationshipsForP2 env reg sw (some i) = relationshipsFor reg sw i ∧
    relationshipStateForP2 env kindOf reg sw (some i) n =
      relationshipStateFor kindOf reg sw i n := by
  constructor
  · rfl
  · unfold relationshipStateForP2 relationshipStateFor relationshipsForP2 relationshipsFor
    simp [hn]

/-- A concrete InternalModel fallback environment for the C9 witness. -/
def envW : InternalModelEnv :=
  { imIdentifier := 7, imStore := 9, identifierAsName := fun _ => "legacy" }

/-- C9 witness: a well-formed call on the empty registry. -/
theorem record_data_for_equivalence_witness :
    ("comments" : PropertyName) ≠ "" ∧
    relationshipStateForP2 envW kindOfW emptyRegistry 0 (some 1) "comments" =
      relationshipStateFor kindOfW emptyRegistry 0 1 "comments" :=
  ⟨by decide,
   (record_data_for_equivalence envW kindOfW emptyRegistry 0 1 "comments" (by decide)).2⟩
